import Mathlib

/-!
TaskTool: a verification development

A shallow embedding of `Source/tasktool.cpp` (a console task manager) and
theorems about its filter, metric engine, table ordering, gauge rendering and
key handling.

Conventions of the embedding

* `wchar_t` / `wint_t` / `int` key codes are natural numbers; a `wstring` is a
  list of code units.
* `DWORD` and `ULONGLONG` values are natural numbers, with `% 2^32` and
  `% 2^64` written out wherever the C++ arithmetic wraps.
* `double` values are exact rationals (no rounding, no NaN).
* The global variables of the program are the fields of `State`; the history
  map `perfHistory` is a partial function from pid to `PerfTracker`.
* Console input is the list of codes that successive `_getch` / `_getwch`
  calls return; a function that would wait for a key on an exhausted list
  returns `none`.
-/

namespace TaskTool

/-! ## Strings -/

/-- A `std::wstring`: a sequence of UTF-16 code units. -/
abbrev wstring := List Nat

/-- A wide string literal `L"..."`. -/
def wstr (s : String) : wstring := s.toList.map Char.toNat

/-- `::tolower` in the "C" locale: `A`..`Z` go to `a`..`z`, every other code is
returned unchanged. -/
def tolower (c : Nat) : Nat := if 65 ≤ c ∧ c ≤ 90 then c + 32 else c

/-- `::toupper` in the "C" locale. -/
def toupper (c : Nat) : Nat := if 97 ≤ c ∧ c ≤ 122 then c - 32 else c

/-- `s.starts_with(pat)` on code-unit sequences. -/
def startsWith : wstring → wstring → Bool
  | _, [] => true
  | [], _ :: _ => false
  | c :: s, d :: pat => c == d && startsWith s pat

/-- Search of `wstring::find(str)`: the first position at or after offset `i`
(counted from the original start) where `pat` occurs, `none` for `npos`. -/
def findFrom (i : Nat) : wstring → wstring → Option Nat
  | [], pat => if startsWith [] pat then some i else none
  | c :: s, pat => if startsWith (c :: s) pat then some i else findFrom (i + 1) s pat

/-- `hay.find(pat)`; `none` is `wstring::npos`. -/
def find (hay pat : wstring) : Option Nat := findFrom 0 hay pat

/-- `s.find(ch)` for a single character. -/
def findChar (s : wstring) (ch : Nat) : Option Nat := find s [ch]

/-- `s.substr(pos, n)` for `pos ≤ s.size()`. -/
def substr (s : wstring) (pos n : Nat) : wstring := (s.drop pos).take n

/-- `ranges::transform(s, s.begin(), ::tolower)`. -/
def lower (s : wstring) : wstring := s.map tolower

/-- The function `checkFilter(name, f)`. -/
def checkFilter (name f : wstring) : Bool :=
  if f = [37] then true
  else
    let name := lower name
    let f := lower f
    if findChar f 37 = none then (find name f).isSome
    else if f.length > 1 ∧ f.head? = some 37 ∧ f.getLast? = some 37 then
      (find name (substr f 1 (f.length - 2))).isSome
    else (find name f).isSome

/-- The filter text the specification searches for: `f` without its first and
last character when `f` is longer than one character and both starts and ends
with `%`, and `f` itself otherwise. -/
def strippedFilter (f : wstring) : wstring :=
  if f.length > 1 ∧ f.head? = some 37 ∧ f.getLast? = some 37 then (f.drop 1).dropLast else f

/-! ## Metric engine -/

/-- The Win32 `FILETIME`: a 64-bit tick count split into two `DWORD` halves. -/
structure FILETIME where
  dwLowDateTime : Nat
  dwHighDateTime : Nat

/-- The 64-bit tick count that a `FILETIME` denotes. -/
def FILETIME.ticks (t : FILETIME) : Nat := t.dwHighDateTime * 2 ^ 32 + t.dwLowDateTime

/-- The struct `PerfTracker`: the raw counters of the previous observation. -/
structure PerfTracker where
  lastP : Nat
  lastS : Nat
  lastIo : Nat
deriving DecidableEq

/-- The global `map<DWORD, PerfTracker> perfHistory`. -/
abbrev PerfHistory := Nat → Option PerfTracker

/-- `perfHistory[pid] = t`. -/
def PerfHistory.set (h : PerfHistory) (pid : Nat) (t : PerfTracker) : PerfHistory :=
  fun q => if q = pid then some t else h q

/-- `QuadPart` of a `ULARGE_INTEGER` whose halves are `LowPart` and `HighPart`. -/
def QuadPart (LowPart HighPart : Nat) : Nat := HighPart * 2 ^ 32 + LowPart

/-- Lines 227-228 of `GetMetrics`: `x.LowPart = k.dwLowDateTime + u.dwLowDateTime;
x.HighPart = k.dwHighDateTime + u.dwHighDateTime;` read back as `x.QuadPart`.
Each half is a `DWORD` sum, so each wraps modulo `2^32` on its own. -/
def combineTimes (k u : FILETIME) : Nat :=
  QuadPart ((k.dwLowDateTime + u.dwLowDateTime) % 2 ^ 32)
    ((k.dwHighDateTime + u.dwHighDateTime) % 2 ^ 32)

/-- Subtraction of `ULONGLONG` values (wraps modulo `2^64`). -/
def usub64 (a b : Nat) : Nat := (a + (2 ^ 64 - b % 2 ^ 64)) % 2 ^ 64

/-- What the operating system answers for one opened process handle during one
poll; `none` is a failed call. -/
structure HandleReadings where
  /-- `GetProcessMemoryInfo`: `WorkingSetSize` in bytes. -/
  memory : Option Nat
  /-- `GetProcessTimes`: kernel time and user time. -/
  processTimes : Option (FILETIME × FILETIME)
  /-- `GetSystemTimes`: kernel time and user time of the host. -/
  systemTimes : Option (FILETIME × FILETIME)
  /-- `GetProcessIoCounters`: `ReadTransferCount` and `WriteTransferCount`. -/
  ioCounters : Option (Nat × Nat)

/-- Line 230: `currentIO = ioOk ? (io.ReadTransferCount + io.WriteTransferCount) : 0`. -/
def currentIo (io : Option (Nat × Nat)) : Nat :=
  match io with
  | some (r, w) => (r + w) % 2 ^ 64
  | none => 0

/-- The outputs of `GetMetrics`: the two reference parameters and the history
map after the call. -/
structure Metrics where
  cpuOut : ℚ
  diskOut : ℚ
  perfHistory : PerfHistory

/-- The function `GetMetrics(pid, h, cpuOut, diskOut)`. -/
def GetMetrics (pid : Nat) (h : HandleReadings) (perfHistory : PerfHistory) : Metrics :=
  match h.processTimes, h.systemTimes with
  | some (kt, ut), some (sk, su) =>
    let p := combineTimes kt ut
    let s := combineTimes sk su
    let cur := currentIo h.ioCounters
    match perfHistory pid with
    | some t =>
      let sd := usub64 s t.lastS
      let pd := usub64 p t.lastP
      let cpuOut : ℚ := if sd > 0 then 100 * (pd : ℚ) / (sd : ℚ) else 0
      let ioDelta := usub64 cur t.lastIo
      let diskOut : ℚ := ((ioDelta : ℚ) / 1024 / 1024) * 2.5
      ⟨cpuOut, diskOut, perfHistory.set pid ⟨p, s, cur⟩⟩
    | none => ⟨0, 0, perfHistory.set pid ⟨p, s, cur⟩⟩
  | _, _ => ⟨0, 0, perfHistory⟩

/-! ## Process table -/

/-- The enum `SortMode`. -/
inductive SortMode where
  | BY_RAM
  | BY_CPU
  | BY_DISK
  | BY_PID
deriving DecidableEq, Repr

/-- The struct `ProcessInfo`: one row of the table. -/
structure ProcessInfo where
  pid : Nat
  name : wstring
  threads : Nat
  memMB : Nat
  cpuUsage : ℚ
  diskMBs : ℚ
deriving DecidableEq

/-- The fields of `PROCESSENTRY32W` that the program reads. -/
structure PROCESSENTRY32W where
  th32ProcessID : Nat
  szExeFile : wstring
  cntThreads : Nat

/-- One process of a snapshot: its entry, and the answer of `OpenProcess` for
it (`none` when no handle is granted) with the readings behind that handle. -/
structure SnapshotEntry where
  pe : PROCESSENTRY32W
  handle : Option HandleReadings

/-- The local variables of `main` that the enumeration loop updates, with the
history map. -/
structure Enumeration where
  procs : List ProcessInfo
  total : Int
  globalDiskSum : ℚ
  globalCpuSum : ℚ
  perfHistory : PerfHistory

/-- Lines 374-377: `mem` stays 0 unless `GetProcessMemoryInfo` succeeds, and is
then `pmc.WorkingSetSize / 1024 / 1024`. -/
def workingSetMB (h : HandleReadings) : Nat :=
  match h.memory with
  | some ws => ws / 1024 / 1024
  | none => 0

/-- The body of the `do ... while (Process32NextW(snap, &pe))` loop, lines 371-384. -/
def enumStep (filterStr : wstring) (acc : Enumeration) (e : SnapshotEntry) : Enumeration :=
  let total := acc.total + 1
  if checkFilter e.pe.szExeFile filterStr then
    match e.handle with
    | some h =>
      let mem := workingSetMB h
      let m := GetMetrics e.pe.th32ProcessID h acc.perfHistory
      { procs := acc.procs ++
          [⟨e.pe.th32ProcessID, e.pe.szExeFile, e.pe.cntThreads, mem, m.cpuOut, m.diskOut⟩]
        total := total
        globalDiskSum := acc.globalDiskSum + m.diskOut
        globalCpuSum := acc.globalCpuSum + m.cpuOut
        perfHistory := m.perfHistory }
    | none =>
      { procs := acc.procs ++ [⟨e.pe.th32ProcessID, e.pe.szExeFile, e.pe.cntThreads, 0, 0, 0⟩]
        total := total
        globalDiskSum := acc.globalDiskSum + 0
        globalCpuSum := acc.globalCpuSum + 0
        perfHistory := acc.perfHistory }
  else { acc with total := total }

/-- Lines 361-386: the enumeration of one snapshot (an empty list when
`Process32FirstW` fails). -/
def enumerate (filterStr : wstring) (perfHistory : PerfHistory) (snap : List SnapshotEntry) :
    Enumeration :=
  snap.foldl (enumStep filterStr) ⟨[], 0, 0, 0, perfHistory⟩

/-- The comparator passed to `ranges::sort`, lines 389-394. -/
def sortComp (currentSort : SortMode) (a b : ProcessInfo) : Bool :=
  if currentSort = SortMode.BY_RAM then decide (a.memMB > b.memMB)
  else if currentSort = SortMode.BY_CPU then decide (a.cpuUsage > b.cpuUsage)
  else if currentSort = SortMode.BY_DISK then decide (a.diskMBs > b.diskMBs)
  else decide (a.pid < b.pid)

/-- Insertion of `a` in front of the first element that `comp` puts after it. -/
def sortInsert {α : Type} (comp : α → α → Bool) (a : α) : List α → List α
  | [] => [a]
  | b :: l => if comp a b then a :: b :: l else b :: sortInsert comp a l

/-- The library call `ranges::sort(v, comp)`, as an insertion sort by `comp`
(the standard fixes the result up to the order of equivalent elements). -/
def ranges_sort {α : Type} (comp : α → α → Bool) (v : List α) : List α :=
  v.foldr (sortInsert comp) []

/-- What one iteration of the main loop hands to the drawing code: the sorted
rows, the count of enumerated processes, the two aggregates and the history. -/
structure Frame where
  procs : List ProcessInfo
  total : Int
  globalDiskSum : ℚ
  globalCpuSum : ℚ
  perfHistory : PerfHistory

/-- Lines 361-395 of `main`: enumerate, sort the rows, clamp the CPU sum. -/
def buildFrame (currentSort : SortMode) (filterStr : wstring) (perfHistory : PerfHistory)
    (snap : List SnapshotEntry) : Frame :=
  let e := enumerate filterStr perfHistory snap
  { procs := ranges_sort (sortComp currentSort) e.procs
    total := e.total
    globalDiskSum := e.globalDiskSum
    globalCpuSum := if e.globalCpuSum > 100 then 100 else e.globalCpuSum
    perfHistory := e.perfHistory }

/-! ## Gauges -/

/-- The conversion `static_cast<int>(x)` of a `double`: truncation toward zero. -/
def truncToInt (x : ℚ) : Int := if 0 ≤ x then ⌊x⌋ else ⌈x⌉

/-- The loop `for (int i = lo; i < hi; i++) s += c;`. -/
def appendLoop (lo hi : Int) (c : Nat) (s : wstring) : wstring :=
  (List.range (hi - lo).toNat).foldl (fun acc _ => acc ++ [c]) s

/-- The function `makeBar(percent, width)`; `|` is code 124 and the blank 32. -/
def makeBar (percent : ℚ) (width : Int) : wstring :=
  if width < 1 then []
  else
    let percent := if percent > 100 then 100 else percent
    let bars := truncToInt ((percent / 100) * width)
    let bars := if bars > width then width else bars
    let bars := if bars < 0 then 0 else bars
    let s := appendLoop 0 bars 124 []
    appendLoop bars width 32 s

/-! ## Input and modes -/

/-- A call made to the process-control interface of the operating system. -/
inductive ControlCall where
  /-- `OpenProcess(PROCESS_TERMINATE, FALSE, pid)`, followed by
  `TerminateProcess` when a handle is granted. -/
  | terminate (pid : Nat)
  /-- `ShellExecuteW(nullptr, L"open", name, ...)`. -/
  | launch (name : wstring)
deriving DecidableEq

/-- The global variables that the key handling reads and writes, and the calls
made so far to the process-control interface (oldest first). -/
structure State where
  currentSort : SortMode
  filterStr : wstring
  running : Bool
  showHelpScreen : Bool
  showInfoScreen : Bool
  g_lastW : Int
  control : List ControlCall
deriving DecidableEq

/-- The initial values of the globals, lines 40-44 and 64. -/
def State.initial : State :=
  { currentSort := SortMode.BY_CPU
    filterStr := wstr "%"
    running := true
    showHelpScreen := false
    showInfoScreen := false
    g_lastW := 0
    control := [] }

/-- The view modes that `main` distinguishes when it draws. -/
inductive ViewMode where
  | Normal
  | Help
  | Info
deriving DecidableEq, Repr

/-- The dispatch of lines 401-402: the help screen is drawn when its flag is
set, else the info screen when its flag is set, else the table. -/
def viewMode (st : State) : ViewMode :=
  if st.showHelpScreen then ViewMode.Help
  else if st.showInfoScreen then ViewMode.Info
  else ViewMode.Normal

/-- The loop of `getUserInput`, lines 135-152, over the codes that `_getwch`
returns from now on; the result is the return value, `outStr`, and the codes
not yet read. -/
def getUserInputLoop (outStr : wstring) : List Nat → Option (Bool × wstring × List Nat)
  | [] => none
  | ch :: keys =>
    if ch = 27 then some (false, outStr, keys)
    else if ch = 13 then some (true, outStr, keys)
    else if ch = 8 then
      if outStr ≠ [] then getUserInputLoop outStr.dropLast keys
      else getUserInputLoop outStr keys
    else if ch ≥ 32 then getUserInputLoop (outStr ++ [ch]) keys
    else getUserInputLoop outStr keys

/-- The function `getUserInput(outStr)`: `outStr.clear()`, then the loop. -/
def getUserInput (keys : List Nat) : Option (Bool × wstring × List Nat) :=
  getUserInputLoop [] keys

/-- The function `closeDialog()`. -/
def closeDialog (st : State) : State := { st with g_lastW := 0 }

/-- The function `handleFilter()`. -/
def handleFilter (st : State) (keys : List Nat) : Option (State × List Nat) :=
  match getUserInput keys with
  | none => none
  | some (ok, tmp, keys) =>
    let st := if ok then (if tmp ≠ [] then { st with filterStr := tmp } else st) else st
    some (closeDialog st, keys)

/-- The classification `iswspace` of the "C" locale: the blank and the control
codes 9 to 13. -/
def iswspace (c : Nat) : Bool := decide (c = 32 ∨ (9 ≤ c ∧ c ≤ 13))

/-- A decimal digit `0`..`9`. -/
def isDigit (c : Nat) : Bool := decide (48 ≤ c ∧ c ≤ 57)

/-- The value of a run of decimal digits. -/
def digitsValue (ds : wstring) : Nat := ds.foldl (fun acc d => acc * 10 + (d - 48)) 0

/-- The library call `std::stoi(s)` on a `wstring`: `wcstol` in base 10 (leading
white space, one optional sign, then the longest run of digits; whatever
follows is not looked at), `none` when it throws: `invalid_argument` when there
is no digit to convert, `out_of_range` when the value does not fit the 32-bit
`long` of the platform. -/
def stoi (s : wstring) : Option Int :=
  let s := s.dropWhile iswspace
  let signed : Bool × wstring :=
    match s with
    | [] => (false, [])
    | c :: t => if c = 45 then (true, t) else if c = 43 then (false, t) else (false, c :: t)
  let digits := signed.2.takeWhile isDigit
  if digits = [] then none
  else
    let n : Int := digitsValue digits
    let v : Int := if signed.1 then -n else n
    if v < -2147483648 ∨ v > 2147483647 then none else some v

/-- The conversion of an `int` to `DWORD`. -/
def toDWORD (n : Int) : Nat := (n % 4294967296).toNat

/-- The function `handleKill()`. -/
def handleKill (st : State) (keys : List Nat) : Option (State × List Nat) :=
  match getUserInput keys with
  | none => none
  | some (ok, tmp, keys) =>
    let st :=
      if ok ∧ tmp ≠ [] then
        match stoi tmp with
        | some n => { st with control := st.control ++ [ControlCall.terminate (toDWORD n)] }
        | none => st
      else st
    some (closeDialog st, keys)

/-- The function `handleNewTask()`. -/
def handleNewTask (st : State) (keys : List Nat) : Option (State × List Nat) :=
  match getUserInput keys with
  | none => none
  | some (ok, tmp, keys) =>
    let st :=
      if ok ∧ tmp ≠ [] then { st with control := st.control ++ [ControlCall.launch tmp] }
      else st
    some (closeDialog st, keys)

/-- The integer value of an enumerator of `SortMode`. -/
def SortMode.toNat : SortMode → Nat
  | SortMode.BY_RAM => 0
  | SortMode.BY_CPU => 1
  | SortMode.BY_DISK => 2
  | SortMode.BY_PID => 3

/-- The conversion `static_cast<SortMode>(n)` for `n` in `0..3`. -/
def SortMode.fromNat : Nat → SortMode
  | 0 => SortMode.BY_RAM
  | 1 => SortMode.BY_CPU
  | 2 => SortMode.BY_DISK
  | _ => SortMode.BY_PID

/-- Line 486: `static_cast<SortMode>((currentSort + 1) % 4)`. -/
def SortMode.next (m : SortMode) : SortMode := SortMode.fromNat ((m.toNat + 1) % 4)

/-- The key handling of `main`, lines 469-492, once `_kbhit()` is true, over
the codes that `_getch` / `_getwch` return from now on; the result is the
globals after the handler and the codes not yet read. -/
def handleKey (st : State) : List Nat → Option (State × List Nat)
  | [] => none
  | ch :: keys =>
    if ch = 0 ∨ ch = 224 then
      match keys with
      | [] => none
      | _ :: keys => some (st, keys)
    else
      let ch := toupper ch
      if st.showHelpScreen ∨ st.showInfoScreen then
        if ch = 27 ∨ ch = 63 ∨ ch = 72 ∨ ch = 73 then
          some ({ st with showHelpScreen := false, showInfoScreen := false, g_lastW := 0 }, keys)
        else some (st, keys)
      else
        if ch = 70 then handleFilter st keys
        else if ch = 73 then some ({ st with showInfoScreen := true, g_lastW := 0 }, keys)
        else if ch = 75 then handleKill st keys
        else if ch = 78 then handleNewTask st keys
        else if ch = 83 then some ({ st with currentSort := st.currentSort.next }, keys)
        else if ch = 27 then some ({ st with running := false }, keys)
        else if ch = 63 ∨ ch = 72 then
          some ({ st with showHelpScreen := true, g_lastW := 0 }, keys)
        else some (st, keys)

/-- The states of the globals that `main` can be in at the top of its loop:
the initial one, and each one that a key handled while `running` leads to. -/
inductive Reachable : State → Prop where
  | init : Reachable State.initial
  | step {st st2 : State} {keys rest : List Nat} :
      Reachable st → st.running = true → handleKey st keys = some (st2, rest) → Reachable st2

/-- The order that the specification states for a sort mode, on a pair of rows
`a`, `b` with `a` right before `b`. -/
def orderedBy (mode : SortMode) (a b : ProcessInfo) : Prop :=
  match mode with
  | SortMode.BY_CPU => a.cpuUsage ≥ b.cpuUsage
  | SortMode.BY_RAM => a.memMB ≥ b.memMB
  | SortMode.BY_DISK => a.diskMBs ≥ b.diskMBs
  | SortMode.BY_PID => a.pid ≤ b.pid

/-- The step of the fold that the specification gives for a dialog's text: a
code of 32 or more is appended, Backspace (8) removes the last character if
there is one, any other code does nothing. -/
def typedStep (text : wstring) (k : Nat) : wstring :=
  if k ≥ 32 then text ++ [k] else if k = 8 then text.dropLast else text

/-- The text that the specification says a sequence of key codes enters. -/
def typedText (keys : List Nat) : wstring := keys.foldl typedStep []

/-- A text that is wholly a decimal integer literal: one digit or more and
nothing else. -/
def isDecimalLiteral (s : wstring) : Bool := decide (s ≠ []) && s.all isDigit

/-- A text with a leading integer: after leading white space and one optional
sign, its next character is a decimal digit. -/
def hasLeadingInteger (s : wstring) : Bool :=
  let s := s.dropWhile iswspace
  let s : wstring :=
    match s with
    | [] => []
    | c :: t => if c = 45 ∨ c = 43 then t else c :: t
  match s with
  | [] => false
  | c :: _ => isDigit c

/-- The raw counters of a process whose counters could be read: the entry that
`GetMetrics` writes to the history, `none` when `GetProcessTimes` or
`GetSystemTimes` fails. -/
def rawCounters (h : HandleReadings) : Option PerfTracker :=
  match h.processTimes, h.systemTimes with
  | some (kt, ut), some (sk, su) =>
    some ⟨combineTimes kt ut, combineTimes sk su, currentIo h.ioCounters⟩
  | _, _ => none

/-- An entry of the snapshot whose metrics the loop computes: it passes the
filter, its handle is granted and its counters can be read as `t`. -/
def sampledAs (filterStr : wstring) (e : SnapshotEntry) (t : PerfTracker) : Prop :=
  checkFilter e.pe.szExeFile filterStr = true ∧
    ∃ h : HandleReadings, e.handle = some h ∧ rawCounters h = some t

/-! ## The filter -/

theorem tolower_eq_percent (c : Nat) : tolower c = 37 ↔ c = 37 := by
  unfold tolower
  split <;> omega

theorem startsWith_iff (s pat : wstring) : startsWith s pat = true ↔ pat <+: s := by
  induction s generalizing pat with
  | nil => cases pat <;> simp [startsWith]
  | cons c s ih =>
    cases pat with
    | nil => simp [startsWith]
    | cons d pat =>
      simp only [startsWith, Bool.and_eq_true, beq_iff_eq, ih, List.cons_prefix_cons]
      constructor
      · rintro ⟨h, h2⟩; exact ⟨h.symm, h2⟩
      · rintro ⟨h, h2⟩; exact ⟨h.symm, h2⟩

theorem findFrom_isSome (i : Nat) (hay pat : wstring) :
    (findFrom i hay pat).isSome = true ↔ pat <:+: hay := by
  induction hay generalizing i with
  | nil =>
    unfold findFrom
    by_cases h : startsWith [] pat = true
    · simp only [h, if_true, Option.isSome_some, true_iff]
      exact ((startsWith_iff _ _).1 h).isInfix
    · have hne : ¬ pat <:+: [] := by
        intro hin
        apply h
        rw [startsWith_iff, List.eq_nil_of_infix_nil hin]
      simp [h, hne]
  | cons c s ih =>
    unfold findFrom
    by_cases h : startsWith (c :: s) pat = true
    · simp only [h, if_true, Option.isSome_some, true_iff]
      exact ((startsWith_iff _ _).1 h).isInfix
    · rw [if_neg h, ih, List.infix_cons_iff]
      rw [startsWith_iff] at h
      simp [h]

theorem find_isSome (hay pat : wstring) : (find hay pat).isSome = true ↔ pat <:+: hay :=
  findFrom_isSome 0 hay pat

theorem singleton_infix (s : wstring) (ch : Nat) : [ch] <:+: s ↔ ch ∈ s := by
  constructor
  · rintro ⟨a, b, rfl⟩
    simp
  · intro h
    obtain ⟨a, b, rfl⟩ := List.append_of_mem h
    exact ⟨a, b, by simp⟩

theorem findChar_eq_none (s : wstring) (ch : Nat) : findChar s ch = none ↔ ch ∉ s := by
  have h := find_isSome s [ch]
  unfold findChar
  rw [← Option.not_isSome_iff_eq_none, h, singleton_infix]

theorem lower_head (f : wstring) : (lower f).head? = some 37 ↔ f.head? = some 37 := by
  cases f with
  | nil => simp [lower]
  | cons c f => simp [lower, tolower_eq_percent]

theorem lower_getLast (f : wstring) : (lower f).getLast? = some 37 ↔ f.getLast? = some 37 := by
  unfold lower
  rw [List.getLast?_eq_head?_reverse, List.getLast?_eq_head?_reverse, ← List.map_reverse]
  exact lower_head f.reverse

theorem substr_lower (f : wstring) :
    substr (lower f) 1 ((lower f).length - 2) = lower ((f.drop 1).dropLast) := by
  unfold substr lower
  rw [List.dropLast_eq_take, List.length_map, List.length_drop, ← List.map_drop, ← List.map_take]
  congr 2

theorem mem_of_head (f : wstring) (h : f.head? = some 37) : 37 ∈ f := by
  cases f with
  | nil => simp at h
  | cons c f => simp at h; simp [h]

/-- C1: `checkFilter(name, f)` holds exactly when `f` is `"%"` or the lowered
name contains the lowered search text, the search text being `f` without its
first and last character when `f` is longer than one character and wrapped in
`%`, and `f` itself otherwise; `"%"` admits every name, `"%chrome%"` admits
`"chrome.exe"` and `"Chrome Helper"` and rejects `"notepad.exe"`, and `"note"`
admits `"Notepad.exe"`. -/
theorem checkFilter_spec :
    (∀ name f : wstring,
      checkFilter name f = true ↔
        (f = wstr "%" ∨ lower (strippedFilter f) <:+: lower name)) ∧
    (∀ name : wstring, checkFilter name (wstr "%") = true) ∧
    checkFilter (wstr "chrome.exe") (wstr "%chrome%") = true ∧
    checkFilter (wstr "Chrome Helper") (wstr "%chrome%") = true ∧
    checkFilter (wstr "notepad.exe") (wstr "%chrome%") = false ∧
    checkFilter (wstr "Notepad.exe") (wstr "note") = true := by
  refine ⟨?_, ?_, by decide, by decide, by decide, by decide⟩
  · intro name f
    have hw : wstr "%" = [37] := by decide
    rw [hw]
    unfold checkFilter
    by_cases h1 : f = [37]
    · simp [h1]
    · simp only [h1, if_false, false_or]
      by_cases h2 : findChar (lower f) 37 = none
      · rw [if_pos h2, find_isSome]
        have hnot : ¬ (f.length > 1 ∧ f.head? = some 37 ∧ f.getLast? = some 37) := by
          rintro ⟨_, hh, _⟩
          rw [findChar_eq_none] at h2
          exact h2 (mem_of_head _ ((lower_head f).2 hh))
        simp only [strippedFilter, if_neg hnot]
      · rw [if_neg h2]
        by_cases h3 : f.length > 1 ∧ f.head? = some 37 ∧ f.getLast? = some 37
        · have h3l : (lower f).length > 1 ∧ (lower f).head? = some 37 ∧
              (lower f).getLast? = some 37 := by
            refine ⟨?_, (lower_head f).2 h3.2.1, (lower_getLast f).2 h3.2.2⟩
            simpa [lower] using h3.1
          rw [if_pos h3l, find_isSome, substr_lower]
          simp only [strippedFilter, if_pos h3]
        · have h3l : ¬ ((lower f).length > 1 ∧ (lower f).head? = some 37 ∧
              (lower f).getLast? = some 37) := by
            rintro ⟨ha, hb, hc⟩
            apply h3
            refine ⟨?_, (lower_head f).1 hb, (lower_getLast f).1 hc⟩
            simpa [lower] using ha
          rw [if_neg h3l, find_isSome]
          simp only [strippedFilter, if_neg h3]
  · intro name
    have hw : wstr "%" = [37] := by decide
    simp [hw, checkFilter]
/-! ## The metric engine -/

theorem combineTimes_lt (k u : FILETIME) : combineTimes k u < 2 ^ 64 := by
  unfold combineTimes QuadPart
  have h1 : (k.dwLowDateTime + u.dwLowDateTime) % 2 ^ 32 < 2 ^ 32 := Nat.mod_lt _ (by norm_num)
  have h2 : (k.dwHighDateTime + u.dwHighDateTime) % 2 ^ 32 < 2 ^ 32 := Nat.mod_lt _ (by norm_num)
  norm_num at h1 h2 ⊢
  omega

theorem currentIo_lt (io : Option (Nat × Nat)) : currentIo io < 2 ^ 64 := by
  unfold currentIo
  rcases io with _ | ⟨r, w⟩
  · norm_num
  · exact Nat.mod_lt _ (by norm_num)

theorem usub64_of_le (a b : Nat) (hab : b ≤ a) (ha : a < 2 ^ 64) : usub64 a b = a - b := by
  unfold usub64
  norm_num at ha ⊢
  omega

theorem PerfHistory.set_same (h : PerfHistory) (pid : Nat) (t : PerfTracker) :
    h.set pid t pid = some t := by
  simp [PerfHistory.set]

/-- C2: for a pid without a history entry, the first `GetMetrics` call returns
cpu 0 and disk 0 and stores the raw counters; the next call, with counters that
did not decrease, returns cpu `100*(p2-p1)/(s2-s1)` when `s2 > s1` and exactly 0
when `s2 = s1`, and overwrites the entry with the new counters. -/
theorem GetMetrics_first_then_second (hist : PerfHistory) (P : Nat)
    (kt1 ut1 sk1 su1 kt2 ut2 sk2 su2 : FILETIME) (mem1 mem2 : Option Nat)
    (io1 io2 : Option (Nat × Nat))
    (hnew : hist P = none)
    (hp : combineTimes kt1 ut1 ≤ combineTimes kt2 ut2)
    (hs : combineTimes sk1 su1 ≤ combineTimes sk2 su2)
    (hio : currentIo io1 ≤ currentIo io2) :
    let p1 := combineTimes kt1 ut1
    let s1 := combineTimes sk1 su1
    let p2 := combineTimes kt2 ut2
    let s2 := combineTimes sk2 su2
    let first := GetMetrics P ⟨mem1, some (kt1, ut1), some (sk1, su1), io1⟩ hist
    let second := GetMetrics P ⟨mem2, some (kt2, ut2), some (sk2, su2), io2⟩ first.perfHistory
    first.cpuOut = 0 ∧ first.diskOut = 0 ∧
    first.perfHistory P = some ⟨p1, s1, currentIo io1⟩ ∧
    (s2 > s1 → second.cpuOut = 100 * ((p2 : ℚ) - p1) / ((s2 : ℚ) - s1)) ∧
    (s2 = s1 → second.cpuOut = 0) ∧
    second.diskOut = ((currentIo io2 : ℚ) - currentIo io1) / 1024 / 1024 * 2.5 ∧
    second.perfHistory P = some ⟨p2, s2, currentIo io2⟩ := by
  intro p1 s1 p2 s2 first second
  have hfirst : first = ⟨0, 0, hist.set P ⟨p1, s1, currentIo io1⟩⟩ := by
    simp only [first, GetMetrics, hnew]
  have hsecond : second =
      ⟨if usub64 s2 s1 > 0 then 100 * (usub64 p2 p1 : ℚ) / (usub64 s2 s1 : ℚ) else 0,
        ((usub64 (currentIo io2) (currentIo io1) : ℚ) / 1024 / 1024) * 2.5,
        (hist.set P ⟨p1, s1, currentIo io1⟩).set P ⟨p2, s2, currentIo io2⟩⟩ := by
    simp only [second, hfirst, GetMetrics, PerfHistory.set_same]
  have e1 : usub64 s2 s1 = s2 - s1 := usub64_of_le _ _ hs (combineTimes_lt _ _)
  have e2 : usub64 p2 p1 = p2 - p1 := usub64_of_le _ _ hp (combineTimes_lt _ _)
  have e3 : usub64 (currentIo io2) (currentIo io1) = currentIo io2 - currentIo io1 :=
    usub64_of_le _ _ hio (currentIo_lt _)
  rw [hsecond, hfirst, e1, e2, e3]
  refine ⟨rfl, rfl, PerfHistory.set_same _ _ _, ?_, ?_, ?_, PerfHistory.set_same _ _ _⟩
  · intro hgt
    have : s2 - s1 > 0 := Nat.sub_pos_of_lt hgt
    simp only [this, if_true]
    rw [Nat.cast_sub hp, Nat.cast_sub hs]
  · intro heq
    simp [heq]
  · simp only
    rw [Nat.cast_sub hio]

/-- C2, the scenario of the specification: counters `(1500, 15000, 0)` and then
`(1800, 15800, 0)` give cpu 0 and then 37.5. -/
theorem GetMetrics_first_then_second_witness :
    (GetMetrics 7 ⟨none, some (⟨1000, 0⟩, ⟨500, 0⟩), some (⟨15000, 0⟩, ⟨0, 0⟩), some (0, 0)⟩
        (fun _ => none)).cpuOut = 0 ∧
    (GetMetrics 7 ⟨none, some (⟨1000, 0⟩, ⟨800, 0⟩), some (⟨15000, 0⟩, ⟨800, 0⟩), some (0, 0)⟩
        (GetMetrics 7 ⟨none, some (⟨1000, 0⟩, ⟨500, 0⟩), some (⟨15000, 0⟩, ⟨0, 0⟩), some (0, 0)⟩
          (fun _ => none)).perfHistory).cpuOut = 37.5 := by
  have h := GetMetrics_first_then_second (fun _ => none) 7 ⟨1000, 0⟩ ⟨500, 0⟩ ⟨15000, 0⟩ ⟨0, 0⟩
    ⟨1000, 0⟩ ⟨800, 0⟩ ⟨15000, 0⟩ ⟨800, 0⟩ none none (some (0, 0)) (some (0, 0)) rfl
    (by decide) (by decide) (by decide)
  refine ⟨h.1, ?_⟩
  have h2 := h.2.2.2.1 (by decide)
  rw [h2]
  norm_num [combineTimes, QuadPart]

/-! ## The order of the table -/

theorem sortInsert_perm {α : Type} (comp : α → α → Bool) (a : α) (l : List α) :
    (sortInsert comp a l).Perm (a :: l) := by
  induction l with
  | nil => exact List.Perm.refl _
  | cons b l ih =>
    unfold sortInsert
    split
    · exact List.Perm.refl _
    · exact (List.Perm.cons b ih).trans (List.Perm.swap a b l)

theorem ranges_sort_perm {α : Type} (comp : α → α → Bool) (v : List α) :
    (ranges_sort comp v).Perm v := by
  induction v with
  | nil => exact List.Perm.refl _
  | cons a v ih =>
    show (sortInsert comp a (ranges_sort comp v)).Perm (a :: v)
    exact (sortInsert_perm comp a _).trans (List.Perm.cons a ih)

/-- Inserting into a list without adjacent inversions leaves it without
adjacent inversions, for a comparator that never holds both ways. -/
theorem sortInsert_chain {α : Type} (comp : α → α → Bool)
    (hasym : ∀ a b, comp a b = true → comp b a = false) (a : α) (l : List α)
    (hl : List.Chain' (fun x y => comp y x = false) l) :
    List.Chain' (fun x y => comp y x = false) (sortInsert comp a l) := by
  induction l with
  | nil => simp [sortInsert]
  | cons b l ih =>
    unfold sortInsert
    by_cases hab : comp a b = true
    · rw [if_pos hab]
      exact List.Chain'.cons (hasym a b hab) hl
    · rw [if_neg hab]
      have hab2 : comp a b = false := by simpa using hab
      have htail := ih hl.tail
      cases l with
      | nil =>
        simp only [sortInsert]
        exact List.Chain'.cons hab2 (List.chain'_singleton a)
      | cons c l =>
        have hbc : comp c b = false := (List.chain'_cons.1 hl).1
        unfold sortInsert at htail ⊢
        by_cases hac : comp a c = true
        · rw [if_pos hac] at htail ⊢
          exact List.Chain'.cons hab2 htail
        · rw [if_neg hac] at htail ⊢
          exact List.Chain'.cons hbc htail

theorem ranges_sort_chain {α : Type} (comp : α → α → Bool)
    (hasym : ∀ a b, comp a b = true → comp b a = false) (v : List α) :
    List.Chain' (fun x y => comp y x = false) (ranges_sort comp v) := by
  induction v with
  | nil => exact List.chain'_nil
  | cons a v ih => exact sortInsert_chain comp hasym a _ ih

theorem sortComp_asymm (mode : SortMode) (a b : ProcessInfo) :
    sortComp mode a b = true → sortComp mode b a = false := by
  cases mode <;> simp [sortComp] <;> intro h
  · exact le_of_lt h
  · exact le_of_lt h
  · exact le_of_lt h
  · exact le_of_lt h

theorem orderedBy_of_sortComp (mode : SortMode) (a b : ProcessInfo)
    (h : sortComp mode b a = false) : orderedBy mode a b := by
  cases mode <;> simpa [sortComp, orderedBy] using h

/-- C3: for every sort mode and every list of rows, the sorted list has the
same rows and every adjacent pair `(a, b)` of it is ordered by the mode:
`a.cpuUsage ≥ b.cpuUsage` under `BY_CPU`, `a.memMB ≥ b.memMB` under `BY_RAM`,
`a.diskMBs ≥ b.diskMBs` under `BY_DISK`, and `a.pid ≤ b.pid` under `BY_PID`. -/
theorem ranges_sort_orderedBy (mode : SortMode) (procs : List ProcessInfo) :
    List.Chain' (orderedBy mode) (ranges_sort (sortComp mode) procs) ∧
    (ranges_sort (sortComp mode) procs).Perm procs ∧
    ∀ (filterStr : wstring) (hist : PerfHistory) (snap : List SnapshotEntry),
      List.Chain' (orderedBy mode) (buildFrame mode filterStr hist snap).procs := by
  have key : ∀ l : List ProcessInfo,
      List.Chain' (orderedBy mode) (ranges_sort (sortComp mode) l) := fun l =>
    (ranges_sort_chain (sortComp mode) (sortComp_asymm mode) l).imp
      (fun {a b} h => orderedBy_of_sortComp mode a b h)
  exact ⟨key procs, ranges_sort_perm _ _, fun _ _ _ => key _⟩

/-! ## Gauges -/

theorem appendLoop_eq (lo hi : Int) (c : Nat) (s : wstring) :
    appendLoop lo hi c s = s ++ List.replicate (hi - lo).toNat c := by
  unfold appendLoop
  generalize (hi - lo).toNat = n
  induction n with
  | zero => simp
  | succ n ih =>
    rw [List.range_succ, List.foldl_append, ih]
    simp [List.replicate_succ']

/-- The number of filled cells that `makeBar` settles on. -/
theorem makeBar_eq (percent : ℚ) (w : Nat) (hw : 1 ≤ w) :
    ∃ k : Nat, k ≤ w ∧
      (k : Int) = max 0 (min (w : Int)
        (truncToInt (((if percent > 100 then 100 else percent) / 100) * ((w : Int) : ℚ)))) ∧
      makeBar percent w = List.replicate k 124 ++ List.replicate (w - k) 32 := by
  have hw2 : ¬ ((w : Int) < 1) := by omega
  unfold makeBar
  rw [if_neg hw2]
  simp only [appendLoop_eq, List.nil_append]
  generalize truncToInt (((if percent > 100 then 100 else percent) / 100) * ((w : Int) : ℚ)) = b
  by_cases h1 : b > (w : Int)
  · refine ⟨w, le_refl _, ?_, ?_⟩
    · omega
    · simp only [if_pos h1]
      have h2 : ¬ ((w : Int) < 0) := by omega
      simp [h2]
  · simp only [if_neg h1]
    by_cases h2 : b < 0
    · refine ⟨0, Nat.zero_le _, ?_, ?_⟩
      · omega
      · simp [h2]
    · refine ⟨b.toNat, by omega, by omega, ?_⟩
      simp only [if_neg h2, sub_zero]
      congr 2
      omega

theorem truncToInt_intCast (n : Int) : truncToInt (n : ℚ) = n := by
  unfold truncToInt
  split <;> simp

/-- C4: for a width `w ≥ 1`, `makeBar(0, w)` is `w` blanks, `makeBar(100, w)`
is `w` bars, every percent of 100 or more renders as 100 does, and for every
percent the result has `w` cells, the filled ones first. -/
theorem makeBar_spec (w : Nat) (hw : 1 ≤ w) :
    makeBar 0 w = List.replicate w 32 ∧
    makeBar 100 w = List.replicate w 124 ∧
    (∀ p : ℚ, 100 ≤ p → makeBar p w = makeBar 100 w) ∧
    ∀ p : ℚ, (makeBar p w).length = w ∧
      ∃ k : Nat, k ≤ w ∧ makeBar p w = List.replicate k 124 ++ List.replicate (w - k) 32 := by
  have full : ∀ p : ℚ, 100 ≤ p → makeBar p w = List.replicate w 124 := by
    intro p hp
    obtain ⟨k, _, hk, hbar⟩ := makeBar_eq p w hw
    have hval : ((if p > 100 then 100 else p) / 100 : ℚ) * ((w : Int) : ℚ) = ((w : Int) : ℚ) := by
      by_cases h : p > 100
      · rw [if_pos h]; norm_num
      · rw [if_neg h]
        have : p = 100 := le_antisymm (not_lt.1 h) hp
        rw [this]; norm_num
    rw [hval, truncToInt_intCast] at hk
    have hkw : k = w := by omega
    rw [hbar, hkw]
    simp
  refine ⟨?_, full 100 (le_refl _), fun p hp => (full p hp).trans (full 100 (le_refl _)).symm, ?_⟩
  · obtain ⟨k, _, hk, hbar⟩ := makeBar_eq 0 w hw
    have hval : ((if (0 : ℚ) > 100 then 100 else 0) / 100 : ℚ) * ((w : Int) : ℚ) = ((0 : Int) : ℚ) := by
      norm_num
    rw [hval, truncToInt_intCast] at hk
    have hk0 : k = 0 := by omega
    rw [hbar, hk0]
    simp
  · intro p
    obtain ⟨k, hkw, _, hbar⟩ := makeBar_eq p w hw
    refine ⟨?_, k, hkw, hbar⟩
    rw [hbar]
    simp
    omega

/-- C4 at width 4: percent 0 gives four blanks, percent 100 and percent 150
give four bars, and percent 50 gives two bars and two blanks. -/
theorem makeBar_spec_witness :
    makeBar 0 (4 : Nat) = [32, 32, 32, 32] ∧
    makeBar 100 (4 : Nat) = [124, 124, 124, 124] ∧
    makeBar 150 (4 : Nat) = makeBar 100 (4 : Nat) ∧
    (makeBar 50 (4 : Nat)).length = 4 := by
  have h := makeBar_spec 4 (by decide)
  exact ⟨h.1, h.2.1, h.2.2.1 150 (by norm_num), (h.2.2.2 50).1⟩

/-! ## Aggregates -/

/-- The loop appends one row per admitted process and adds that row's values to
the two sums. -/
theorem enumerate_rows (filterStr : wstring) (snap : List SnapshotEntry) (acc : Enumeration) :
    ∃ rows : List ProcessInfo,
      (snap.foldl (enumStep filterStr) acc).procs = acc.procs ++ rows ∧
      (snap.foldl (enumStep filterStr) acc).globalCpuSum =
        acc.globalCpuSum + (rows.map (fun r => r.cpuUsage)).sum ∧
      (snap.foldl (enumStep filterStr) acc).globalDiskSum =
        acc.globalDiskSum + (rows.map (fun r => r.diskMBs)).sum ∧
      rows.map (fun r => (r.pid, r.name)) =
        (snap.filter (fun x => checkFilter x.pe.szExeFile filterStr)).map
          (fun x => (x.pe.th32ProcessID, x.pe.szExeFile)) := by
  induction snap generalizing acc with
  | nil => exact ⟨[], by simp⟩
  | cons x snap ih =>
    obtain ⟨rows, h1, h2, h3, h4⟩ := ih (enumStep filterStr acc x)
    rw [List.foldl_cons, h1, h2, h3]
    by_cases hf : checkFilter x.pe.szExeFile filterStr = true
    · rcases hx : x.handle with _ | h
      · refine ⟨⟨x.pe.th32ProcessID, x.pe.szExeFile, x.pe.cntThreads, 0, 0, 0⟩ :: rows, ?_⟩
        simp [enumStep, hf, hx, h4, List.filter_cons]
      · refine ⟨⟨x.pe.th32ProcessID, x.pe.szExeFile, x.pe.cntThreads, workingSetMB h,
          (GetMetrics x.pe.th32ProcessID h acc.perfHistory).cpuOut,
          (GetMetrics x.pe.th32ProcessID h acc.perfHistory).diskOut⟩ :: rows, ?_⟩
        simp only [enumStep, hf, hx, if_true, List.append_assoc, List.singleton_append,
          List.map_cons, List.sum_cons, List.filter_cons, h4, add_assoc, true_and, and_self]
    · refine ⟨rows, ?_⟩
      simp [enumStep, hf, h4, List.filter_cons]

/-- Two runs of the loop that differ only in `total` stay so, and a rejected
process changes nothing but `total`. -/
theorem enumerate_filter (filterStr : wstring) (snap : List SnapshotEntry)
    (a b : Enumeration) (hp : a.procs = b.procs) (hc : a.globalCpuSum = b.globalCpuSum)
    (hd : a.globalDiskSum = b.globalDiskSum) (hh : a.perfHistory = b.perfHistory) :
    let r := snap.foldl (enumStep filterStr) a
    let r2 := (snap.filter (fun x => checkFilter x.pe.szExeFile filterStr)).foldl
      (enumStep filterStr) b
    r.procs = r2.procs ∧ r.globalCpuSum = r2.globalCpuSum ∧
      r.globalDiskSum = r2.globalDiskSum ∧ r.perfHistory = r2.perfHistory := by
  induction snap generalizing a b with
  | nil => exact ⟨hp, hc, hd, hh⟩
  | cons x snap ih =>
    by_cases hf : checkFilter x.pe.szExeFile filterStr = true
    · simp only [List.filter_cons, hf, if_true, List.foldl_cons]
      apply ih
      · rcases hx : x.handle with _ | h <;> simp [enumStep, hf, hx, hp, hh]
      · rcases hx : x.handle with _ | h <;> simp [enumStep, hf, hx, hc, hh]
      · rcases hx : x.handle with _ | h <;> simp [enumStep, hf, hx, hd, hh]
      · rcases hx : x.handle with _ | h <;> simp [enumStep, hf, hx, hh]
    · simp only [List.filter_cons, hf, List.foldl_cons]
      apply ih
      · simp [enumStep, hf, hp]
      · simp [enumStep, hf, hc]
      · simp [enumStep, hf, hd]
      · simp [enumStep, hf, hh]

/-- C5: the rows are those of the processes that pass the filter; the CPU
aggregate handed to the gauges is `min(100, sum of cpuUsage over the rows)`,
hence at most 100 (a sum of 137 is shown as 100); the disk aggregate is the
sum of `diskMBs` over the rows; and dropping the rejected processes from the
snapshot changes neither aggregate. -/
theorem aggregates_spec (mode : SortMode) (filterStr : wstring) (hist : PerfHistory)
    (snap : List SnapshotEntry) :
    (buildFrame mode filterStr hist snap).procs.Perm (enumerate filterStr hist snap).procs ∧
    (enumerate filterStr hist snap).procs.map (fun r => (r.pid, r.name)) =
      (snap.filter (fun x => checkFilter x.pe.szExeFile filterStr)).map
        (fun x => (x.pe.th32ProcessID, x.pe.szExeFile)) ∧
    (buildFrame mode filterStr hist snap).globalCpuSum =
      min 100 (((buildFrame mode filterStr hist snap).procs.map (fun r => r.cpuUsage)).sum) ∧
    (buildFrame mode filterStr hist snap).globalCpuSum ≤ 100 ∧
    (buildFrame mode filterStr hist snap).globalDiskSum =
      ((buildFrame mode filterStr hist snap).procs.map (fun r => r.diskMBs)).sum ∧
    (buildFrame mode filterStr hist
        (snap.filter (fun x => checkFilter x.pe.szExeFile filterStr))).globalCpuSum =
      (buildFrame mode filterStr hist snap).globalCpuSum ∧
    (buildFrame mode filterStr hist
        (snap.filter (fun x => checkFilter x.pe.szExeFile filterStr))).globalDiskSum =
      (buildFrame mode filterStr hist snap).globalDiskSum ∧
    (((buildFrame SortMode.BY_CPU (wstr "%") (fun _ => some ⟨0, 0, 0⟩)
        [⟨⟨4, wstr "a.exe", 1⟩,
          some ⟨none, some (⟨137, 0⟩, ⟨0, 0⟩), some (⟨100, 0⟩, ⟨0, 0⟩), none⟩⟩]).procs.map
          (fun r => r.cpuUsage)).sum = 137 ∧
      (buildFrame SortMode.BY_CPU (wstr "%") (fun _ => some ⟨0, 0, 0⟩)
        [⟨⟨4, wstr "a.exe", 1⟩,
          some ⟨none, some (⟨137, 0⟩, ⟨0, 0⟩), some (⟨100, 0⟩, ⟨0, 0⟩), none⟩⟩]).globalCpuSum
        = 100) := by
  obtain ⟨rows, h1, h2, h3, h4⟩ := enumerate_rows filterStr snap ⟨[], 0, 0, 0, hist⟩
  have hperm : (buildFrame mode filterStr hist snap).procs.Perm
      (enumerate filterStr hist snap).procs := ranges_sort_perm _ _
  have hrows : (enumerate filterStr hist snap).procs = rows := by simpa [enumerate] using h1
  have hcpu : (enumerate filterStr hist snap).globalCpuSum =
      ((buildFrame mode filterStr hist snap).procs.map (fun r => r.cpuUsage)).sum := by
    rw [(hperm.map _).sum_eq, hrows]
    simpa [enumerate] using h2
  have hdisk : (enumerate filterStr hist snap).globalDiskSum =
      ((buildFrame mode filterStr hist snap).procs.map (fun r => r.diskMBs)).sum := by
    rw [(hperm.map _).sum_eq, hrows]
    simpa [enumerate] using h3
  have hclamp : ∀ s : List SnapshotEntry, (buildFrame mode filterStr hist s).globalCpuSum =
      min 100 (enumerate filterStr hist s).globalCpuSum := by
    intro s
    simp only [buildFrame]
    split
    · next h => exact (min_eq_left (le_of_lt h)).symm
    · next h => exact (min_eq_right (not_lt.1 h)).symm
  have hfilt := enumerate_filter filterStr snap ⟨[], 0, 0, 0, hist⟩ ⟨[], 0, 0, 0, hist⟩
    rfl rfl rfl rfl
  refine ⟨hperm, ?_, ?_, ?_, hdisk, ?_, ?_, ?_⟩
  · rw [hrows]; exact h4
  · rw [hclamp, hcpu]
  · rw [hclamp]; exact min_le_left _ _
  · rw [hclamp, hclamp]
    exact congrArg (min 100) hfilt.2.1.symm
  · exact hfilt.2.2.1.symm
  · have hw : wstr "%" = [37] := by decide
    have hu : usub64 137 0 = 137 := by decide
    have hu2 : usub64 100 0 = 100 := by decide
    have hu3 : usub64 0 0 = 0 := by decide
    simp [buildFrame, enumerate, enumStep, checkFilter, hw, GetMetrics, combineTimes, QuadPart,
      currentIo, hu, hu2, hu3, ranges_sort, sortInsert]
    norm_num

/-! ## Low and high halves of the tick counts -/

/-- When neither pair of halves overflows its 32 bits, the combined count is
the sum of the two tick counts. -/
theorem combineTimes_of_no_carry (k u : FILETIME)
    (hlow : k.dwLowDateTime + u.dwLowDateTime < 2 ^ 32)
    (hhigh : k.dwHighDateTime + u.dwHighDateTime < 2 ^ 32) :
    combineTimes k u = k.ticks + u.ticks := by
  unfold combineTimes QuadPart FILETIME.ticks
  rw [Nat.mod_eq_of_lt hlow, Nat.mod_eq_of_lt hhigh]
  ring

/-- C10: at kernel time `0x80000000` ticks and user time `0x80000000` ticks
(about 215 seconds each; their sum `0x100000000` fits in 64 bits with room to
spare) the low halves are added without a carry into the high half: the
process time that `GetMetrics` computes and stores is 0, not `2^32`. -/
theorem combineTimes_drops_carry :
    FILETIME.ticks ⟨2147483648, 0⟩ + FILETIME.ticks ⟨2147483648, 0⟩ = 4294967296 ∧
    FILETIME.ticks ⟨2147483648, 0⟩ + FILETIME.ticks ⟨2147483648, 0⟩ < 2 ^ 64 ∧
    combineTimes ⟨2147483648, 0⟩ ⟨2147483648, 0⟩ = 0 ∧
    (GetMetrics 7 ⟨none, some (⟨2147483648, 0⟩, ⟨2147483648, 0⟩),
        some (⟨2147483648, 0⟩, ⟨2147483648, 0⟩), none⟩ (fun _ => none)).perfHistory 7 =
      some ⟨0, 0, 0⟩ := by
  refine ⟨by decide, by decide, by decide, ?_⟩
  simp [GetMetrics, PerfHistory.set, combineTimes, QuadPart, currentIo]

/-! ## Extended keys -/

/-- C6: the key handler of `main` reads and drops both codes of an extended key
in every state, but the text entry of a dialog does not: an Up arrow (codes
224, 72) typed into the Filter dialog before Enter enters the text `àH`, which
is committed as the filter, where Enter alone leaves the filter as it was. -/
theorem extended_key_in_dialog :
    (∀ (st : State) (c2 : Nat) (keys : List Nat),
      handleKey st (0 :: c2 :: keys) = some (st, keys) ∧
      handleKey st (224 :: c2 :: keys) = some (st, keys)) ∧
    getUserInput [13] = some (true, [], []) ∧
    getUserInput [224, 72, 13] = some (true, [224, 72], []) ∧
    getUserInput [0, 72, 13] = some (true, [72], []) ∧
    (handleFilter State.initial [13]).map (fun r => r.1.filterStr) = some (wstr "%") ∧
    (handleFilter State.initial [224, 72, 13]).map (fun r => r.1.filterStr) = some [224, 72] ∧
    (handleKey State.initial [102, 224, 72, 13]).map (fun r => r.1.filterStr) =
      some [224, 72] := by
  refine ⟨fun st c2 keys => ⟨by simp [handleKey], by simp [handleKey]⟩, by decide, by decide,
    by decide, by decide, by decide, by decide⟩

/-! ## Dialog text entry -/

theorem getUserInputLoop_step (outStr : wstring) (k : Nat) (keys : List Nat)
    (hk : k ≠ 13 ∧ k ≠ 27) :
    getUserInputLoop outStr (k :: keys) = getUserInputLoop (typedStep outStr k) keys := by
  obtain ⟨h13, h27⟩ := hk
  unfold typedStep
  rw [getUserInputLoop, if_neg h27, if_neg h13]
  by_cases h8 : k = 8
  · have hlt : ¬ (k ≥ 32) := by omega
    rw [if_pos h8, if_neg hlt, if_pos h8]
    by_cases he : outStr = []
    · simp [he]
    · simp [he]
  · rw [if_neg h8, if_neg h8]
    split <;> rfl

/-- The loop of `getUserInput` is the fold of `typedStep` up to the first Enter
or Escape. -/
theorem getUserInputLoop_fold (outStr : wstring) (pre : List Nat) (t : Nat) (post : List Nat)
    (hpre : ∀ k ∈ pre, k ≠ 13 ∧ k ≠ 27) (ht : t = 13 ∨ t = 27) :
    getUserInputLoop outStr (pre ++ t :: post) =
      some (decide (t = 13), pre.foldl typedStep outStr, post) := by
  induction pre generalizing outStr with
  | nil =>
    rcases ht with rfl | rfl <;> simp [getUserInputLoop]
  | cons k pre ih =>
    rw [List.cons_append, getUserInputLoop_step _ _ _ (hpre k (List.mem_cons_self _ _)),
      ih _ (fun x hx => hpre x (List.mem_cons_of_mem _ hx)), List.foldl_cons]

/-- Without Enter or Escape the text entry does not return. -/
theorem getUserInputLoop_waits (outStr : wstring) (keys : List Nat)
    (hkeys : ∀ k ∈ keys, k ≠ 13 ∧ k ≠ 27) : getUserInputLoop outStr keys = none := by
  induction keys generalizing outStr with
  | nil => rfl
  | cons k keys ih =>
    rw [getUserInputLoop_step _ _ _ (hkeys k (List.mem_cons_self _ _))]
    exact ih _ (fun x hx => hkeys x (List.mem_cons_of_mem _ hx))

/-- C9: for keys typed into the Filter dialog up to the first Enter or Escape,
the entered text is the fold of the keys over the empty string (a code of 32 or
more is appended, Backspace removes the last character if there is one, other
codes do nothing); the dialog returns, and the filter is the entered text when
the keys ended with Enter and the text is not empty, and is unchanged when
they ended with Escape or the text is empty. -/
theorem handleFilter_spec (st : State) (pre : List Nat) (t : Nat) (post : List Nat)
    (hpre : ∀ k ∈ pre, k ≠ 13 ∧ k ≠ 27) (ht : t = 13 ∨ t = 27) :
    getUserInput (pre ++ t :: post) = some (decide (t = 13), typedText pre, post) ∧
    ∃ st2 : State, handleFilter st (pre ++ t :: post) = some (st2, post) ∧
      (t = 13 → typedText pre ≠ [] → st2.filterStr = typedText pre) ∧
      (t = 27 ∨ typedText pre = [] → st2.filterStr = st.filterStr) ∧
      st2.currentSort = st.currentSort ∧ st2.running = st.running ∧
      viewMode st2 = viewMode st := by
  have hloop : getUserInput (pre ++ t :: post) = some (decide (t = 13), typedText pre, post) :=
    getUserInputLoop_fold [] pre t post hpre ht
  refine ⟨hloop, ?_⟩
  unfold handleFilter
  rw [hloop]
  refine ⟨_, rfl, ?_, ?_, ?_, ?_, ?_⟩
  · intro h13 hne
    simp [h13, hne, closeDialog]
  · intro h
    rcases h with h27 | hempty
    · simp [h27, closeDialog]
    · by_cases h13 : t = 13 <;> simp [h13, hempty, closeDialog]
  · by_cases h13 : t = 13 <;> by_cases hne : typedText pre = [] <;>
      simp [h13, hne, closeDialog]
  · by_cases h13 : t = 13 <;> by_cases hne : typedText pre = [] <;>
      simp [h13, hne, closeDialog]
  · by_cases h13 : t = 13 <;> by_cases hne : typedText pre = [] <;>
      simp [h13, hne, closeDialog, viewMode]

/-- C9 on concrete keys: `a`, `b`, Backspace, `c`, Enter commits the filter
`ac`. -/
theorem handleFilter_spec_witness :
    getUserInput [97, 98, 8, 99, 13] = some (true, [97, 99], []) ∧
    ∃ st2 : State, handleFilter State.initial [97, 98, 8, 99, 13] = some (st2, []) ∧
      st2.filterStr = [97, 99] := by
  have h := handleFilter_spec State.initial [97, 98, 8, 99] 13 [] (by decide) (Or.inl rfl)
  have ht : typedText [97, 98, 8, 99] = [97, 99] := by decide
  rw [ht] at h
  obtain ⟨h1, st2, h2, h3, _⟩ := h
  exact ⟨h1, st2, h2, h3 rfl (by decide)⟩

/-! ## The key handler -/

theorem viewMode_normal_iff (st : State) :
    viewMode st = ViewMode.Normal ↔ st.showHelpScreen = false ∧ st.showInfoScreen = false := by
  unfold viewMode
  cases st.showHelpScreen <;> cases st.showInfoScreen <;> simp

theorem handleFilter_flags (st st2 : State) (keys rest : List Nat)
    (h : handleFilter st keys = some (st2, rest)) :
    st2.showHelpScreen = st.showHelpScreen ∧ st2.showInfoScreen = st.showInfoScreen := by
  unfold handleFilter at h
  rcases hg : getUserInput keys with _ | ⟨ok, tmp, r⟩
  · simp [hg] at h
  · simp only [hg, Option.some.injEq, Prod.mk.injEq] at h
    rw [← h.1]
    cases ok <;> by_cases he : tmp = [] <;> simp [closeDialog, he]

theorem handleKill_flags (st st2 : State) (keys rest : List Nat)
    (h : handleKill st keys = some (st2, rest)) :
    st2.showHelpScreen = st.showHelpScreen ∧ st2.showInfoScreen = st.showInfoScreen := by
  unfold handleKill at h
  rcases hg : getUserInput keys with _ | ⟨ok, tmp, r⟩
  · simp [hg] at h
  · simp only [hg, Option.some.injEq, Prod.mk.injEq] at h
    rw [← h.1]
    by_cases hc : ok = true ∧ tmp ≠ []
    · rw [if_pos hc]
      rcases stoi tmp with _ | n <;> simp [closeDialog]
    · rw [if_neg hc]
      simp [closeDialog]

theorem handleNewTask_flags (st st2 : State) (keys rest : List Nat)
    (h : handleNewTask st keys = some (st2, rest)) :
    st2.showHelpScreen = st.showHelpScreen ∧ st2.showInfoScreen = st.showInfoScreen := by
  unfold handleNewTask at h
  rcases hg : getUserInput keys with _ | ⟨ok, tmp, r⟩
  · simp [hg] at h
  · simp only [hg, Option.some.injEq, Prod.mk.injEq] at h
    rw [← h.1]
    by_cases hc : ok = true ∧ tmp ≠ []
    · rw [if_pos hc]
      simp [closeDialog]
    · rw [if_neg hc]
      simp [closeDialog]

/-- One handled key never leaves both overlay flags set when they were not
both set before. -/
theorem handleKey_flags (st st2 : State) (keys rest : List Nat)
    (hinv : ¬ (st.showHelpScreen = true ∧ st.showInfoScreen = true))
    (h : handleKey st keys = some (st2, rest)) :
    ¬ (st2.showHelpScreen = true ∧ st2.showInfoScreen = true) := by
  cases keys with
  | nil => simp [handleKey] at h
  | cons ch keys =>
    unfold handleKey at h
    dsimp only at h
    by_cases hext : ch = 0 ∨ ch = 224
    · rw [if_pos hext] at h
      cases keys with
      | nil => simp at h
      | cons c2 keys =>
        simp only [Option.some.injEq, Prod.mk.injEq] at h
        rw [← h.1]; exact hinv
    · rw [if_neg hext] at h
      by_cases hov : st.showHelpScreen = true ∨ st.showInfoScreen = true
      · rw [if_pos hov] at h
        split at h
        · simp only [Option.some.injEq, Prod.mk.injEq] at h
          rw [← h.1]; simp
        · simp only [Option.some.injEq, Prod.mk.injEq] at h
          rw [← h.1]; exact hinv
      · rw [if_neg hov] at h
        have hh : st.showHelpScreen = false := by
          cases hb : st.showHelpScreen
          · rfl
          · exact absurd (Or.inl hb) hov
        have hi : st.showInfoScreen = false := by
          cases hb : st.showInfoScreen
          · rfl
          · exact absurd (Or.inr hb) hov
        split at h
        · rw [(handleFilter_flags _ _ _ _ h).1, hh]; simp
        · split at h
          · simp only [Option.some.injEq, Prod.mk.injEq] at h
            rw [← h.1]; simp [hh]
          · split at h
            · rw [(handleKill_flags _ _ _ _ h).1, hh]; simp
            · split at h
              · rw [(handleNewTask_flags _ _ _ _ h).1, hh]; simp
              · split at h
                · simp only [Option.some.injEq, Prod.mk.injEq] at h
                  rw [← h.1]; simp [hh]
                · split at h
                  · simp only [Option.some.injEq, Prod.mk.injEq] at h
                    rw [← h.1]; simp [hh]
                  · split at h
                    · simp only [Option.some.injEq, Prod.mk.injEq] at h
                      rw [← h.1]; simp [hi]
                    · simp only [Option.some.injEq, Prod.mk.injEq] at h
                      rw [← h.1]; simp [hh]

theorem reachable_flags (s : State) (hs : Reachable s) :
    ¬ (s.showHelpScreen = true ∧ s.showInfoScreen = true) := by
  induction hs with
  | init => simp [State.initial]
  | step _ _ hk ih => exact handleKey_flags _ _ _ _ ih hk

theorem handleKey_single (st : State) (ch : Nat) (keys : List Nat) (h0 : ch ≠ 0)
    (h224 : ch ≠ 224) :
    handleKey st (ch :: keys) =
      if st.showHelpScreen = true ∨ st.showInfoScreen = true then
        if toupper ch = 27 ∨ toupper ch = 63 ∨ toupper ch = 72 ∨ toupper ch = 73 then
          some ({ st with showHelpScreen := false, showInfoScreen := false, g_lastW := 0 }, keys)
        else some (st, keys)
      else
        if toupper ch = 70 then handleFilter st keys
        else if toupper ch = 73 then some ({ st with showInfoScreen := true, g_lastW := 0 }, keys)
        else if toupper ch = 75 then handleKill st keys
        else if toupper ch = 78 then handleNewTask st keys
        else if toupper ch = 83 then some ({ st with currentSort := st.currentSort.next }, keys)
        else if toupper ch = 27 then some ({ st with running := false }, keys)
        else if toupper ch = 63 ∨ toupper ch = 72 then
          some ({ st with showHelpScreen := true, g_lastW := 0 }, keys)
        else some (st, keys) := by
  have hext : ¬ (ch = 0 ∨ ch = 224) := by omega
  unfold handleKey
  dsimp only
  rw [if_neg hext]

/-- C8: on a key of a single code, the handler follows the table of the
specification. In Normal, F runs the Filter dialog, K the Kill dialog, N the
NewTask dialog; S stays in Normal and moves the sort mode one step along
BY_RAM, BY_CPU, BY_DISK, BY_PID and back to BY_RAM (four steps restore it); I
enters Info; ? or H enters Help; Escape clears `running`. In Help or Info,
Escape, ?, H or I return to Normal with `running` untouched and every other
key changes nothing. No reachable state has Help and Info both active. -/
theorem handleKey_table (st : State) (ch : Nat) (keys : List Nat) (h0 : ch ≠ 0)
    (h224 : ch ≠ 224) :
    (viewMode st = ViewMode.Normal →
      (toupper ch = 70 → handleKey st (ch :: keys) = handleFilter st keys) ∧
      (toupper ch = 75 → handleKey st (ch :: keys) = handleKill st keys) ∧
      (toupper ch = 78 → handleKey st (ch :: keys) = handleNewTask st keys) ∧
      (toupper ch = 83 →
        handleKey st (ch :: keys) = some ({ st with currentSort := st.currentSort.next }, keys) ∧
        viewMode { st with currentSort := st.currentSort.next } = ViewMode.Normal) ∧
      (toupper ch = 73 →
        ∃ st2, handleKey st (ch :: keys) = some (st2, keys) ∧ viewMode st2 = ViewMode.Info ∧
          st2.currentSort = st.currentSort ∧ st2.filterStr = st.filterStr ∧
          st2.running = st.running) ∧
      (toupper ch = 63 ∨ toupper ch = 72 →
        ∃ st2, handleKey st (ch :: keys) = some (st2, keys) ∧ viewMode st2 = ViewMode.Help ∧
          st2.currentSort = st.currentSort ∧ st2.filterStr = st.filterStr ∧
          st2.running = st.running) ∧
      (toupper ch = 27 →
        ∃ st2, handleKey st (ch :: keys) = some (st2, keys) ∧ st2.running = false)) ∧
    (viewMode st = ViewMode.Help ∨ viewMode st = ViewMode.Info →
      (toupper ch = 27 ∨ toupper ch = 63 ∨ toupper ch = 72 ∨ toupper ch = 73 →
        ∃ st2, handleKey st (ch :: keys) = some (st2, keys) ∧ viewMode st2 = ViewMode.Normal ∧
          st2.running = st.running ∧ st2.currentSort = st.currentSort ∧
          st2.filterStr = st.filterStr) ∧
      (¬ (toupper ch = 27 ∨ toupper ch = 63 ∨ toupper ch = 72 ∨ toupper ch = 73) →
        handleKey st (ch :: keys) = some (st, keys))) ∧
    (SortMode.BY_RAM.next = SortMode.BY_CPU ∧ SortMode.BY_CPU.next = SortMode.BY_DISK ∧
      SortMode.BY_DISK.next = SortMode.BY_PID ∧ SortMode.BY_PID.next = SortMode.BY_RAM ∧
      ∀ m : SortMode, m.next.next.next.next = m) ∧
    (∀ s : State, Reachable s → ¬ (s.showHelpScreen = true ∧ s.showInfoScreen = true)) := by
  have hk := handleKey_single st ch keys h0 h224
  refine ⟨?_, ?_, ?_, ?_⟩
  · intro hn
    obtain ⟨hh, hi⟩ := (viewMode_normal_iff st).1 hn
    have hov : ¬ (st.showHelpScreen = true ∨ st.showInfoScreen = true) := by simp [hh, hi]
    rw [if_neg hov] at hk
    refine ⟨?_, ?_, ?_, ?_, ?_, ?_, ?_⟩
    · intro hc; rw [hk, if_pos hc]
    · intro hc; rw [hk]; simp [hc]
    · intro hc; rw [hk]; simp [hc]
    · intro hc
      refine ⟨by rw [hk]; simp [hc], ?_⟩
      simp [viewMode, hh, hi]
    · intro hc
      refine ⟨{ st with showInfoScreen := true, g_lastW := 0 }, by rw [hk]; simp [hc],
        ?_, rfl, rfl, rfl⟩
      simp [viewMode, hh]
    · intro hc
      have h70 : toupper ch ≠ 70 := by omega
      have h73 : toupper ch ≠ 73 := by omega
      have h75 : toupper ch ≠ 75 := by omega
      have h78 : toupper ch ≠ 78 := by omega
      have h83 : toupper ch ≠ 83 := by omega
      have h27 : toupper ch ≠ 27 := by omega
      refine ⟨{ st with showHelpScreen := true, g_lastW := 0 },
        by rw [hk, if_neg h70, if_neg h73, if_neg h75, if_neg h78, if_neg h83,
          if_neg h27, if_pos hc], ?_, rfl, rfl, rfl⟩
      simp [viewMode]
    · intro hc
      exact ⟨{ st with running := false }, by rw [hk]; simp [hc], rfl⟩
  · intro hm
    have hov : st.showHelpScreen = true ∨ st.showInfoScreen = true := by
      unfold viewMode at hm
      cases hh : st.showHelpScreen <;> cases hi : st.showInfoScreen <;> simp [hh, hi] at hm ⊢
    rw [if_pos hov] at hk
    refine ⟨?_, ?_⟩
    · intro hc
      refine ⟨{ st with showHelpScreen := false, showInfoScreen := false, g_lastW := 0 },
        by rw [hk, if_pos hc], ?_, rfl, rfl, rfl⟩
      simp [viewMode]
    · intro hc
      rw [hk, if_neg hc]
  · refine ⟨rfl, rfl, rfl, rfl, ?_⟩
    intro m
    cases m <;> rfl
  · exact reachable_flags

/-- C8 at concrete keys, from the initial state (Normal, BY_CPU): `s` moves the
sort mode to BY_DISK, `i` enters Info, and in Info the key `x` changes nothing
while Escape returns to Normal without clearing `running`. -/
theorem handleKey_table_witness :
    handleKey State.initial [115] =
      some ({ State.initial with currentSort := SortMode.BY_DISK }, []) ∧
    (∃ st2, handleKey State.initial [105] = some (st2, []) ∧ viewMode st2 = ViewMode.Info) ∧
    handleKey { State.initial with showInfoScreen := true } [120] =
      some ({ State.initial with showInfoScreen := true }, []) ∧
    (∃ st2, handleKey { State.initial with showInfoScreen := true } [27] = some (st2, []) ∧
      viewMode st2 = ViewMode.Normal ∧ st2.running = true) := by
  have hs := (handleKey_table State.initial 115 [] (by decide) (by decide)).1 (by decide)
  have hi := (handleKey_table State.initial 105 [] (by decide) (by decide)).1 (by decide)
  have hx := (handleKey_table { State.initial with showInfoScreen := true } 120 []
    (by decide) (by decide)).2.1 (Or.inr (by decide))
  have he := (handleKey_table { State.initial with showInfoScreen := true } 27 []
    (by decide) (by decide)).2.1 (Or.inr (by decide))
  refine ⟨(hs.2.2.2.1 (by decide)).1, ?_, hx.2 (by decide), ?_⟩
  · obtain ⟨st2, h1, h2, _⟩ := hi.2.2.2.2.1 (by decide)
    exact ⟨st2, h1, h2⟩
  · obtain ⟨st2, h1, h2, h3, _⟩ := he.1 (by decide)
    exact ⟨st2, h1, h2, h3⟩

/-! ## The Kill dialog -/

/-- Characters of 32 and above, then Enter: the text entry returns them as
typed. -/
theorem getUserInputLoop_text (outStr text : wstring) (keys : List Nat)
    (htext : ∀ c ∈ text, 32 ≤ c) :
    getUserInputLoop outStr (text ++ 13 :: keys) = some (true, outStr ++ text, keys) := by
  induction text generalizing outStr with
  | nil => simp [getUserInputLoop]
  | cons c text ih =>
    have hc : 32 ≤ c := htext c (List.mem_cons_self _ _)
    have h27 : c ≠ 27 := by omega
    have h13 : c ≠ 13 := by omega
    have h8 : c ≠ 8 := by omega
    rw [List.cons_append, getUserInputLoop, if_neg h27, if_neg h13, if_neg h8, if_pos hc,
      ih _ (fun x hx => htext x (List.mem_cons_of_mem _ hx))]
    simp

theorem takeWhile_digits (ds rest : wstring) (hds : ds.all isDigit = true)
    (hrest : ∀ c, rest.head? = some c → isDigit c = false) :
    (ds ++ rest).takeWhile isDigit = ds := by
  induction ds with
  | nil =>
    cases rest with
    | nil => rfl
    | cons c rest => simp [List.takeWhile, hrest c rfl]
  | cons d ds ih =>
    simp only [List.all_cons, Bool.and_eq_true] at hds
    simp [List.takeWhile, hds.1, ih hds.2]

theorem digitsValue_nonneg_cast (ds : wstring) : (0 : Int) ≤ (digitsValue ds : Int) :=
  Int.natCast_nonneg _

/-- `stoi` on a decimal literal followed by something that does not go on with
a digit: the value of the literal, when it fits. -/
theorem stoi_leading (ds rest : wstring) (hlit : isDecimalLiteral ds = true)
    (hrest : ∀ c, rest.head? = some c → isDigit c = false)
    (hfit : digitsValue ds ≤ 2147483647) :
    stoi (ds ++ rest) = some (digitsValue ds : Int) := by
  unfold isDecimalLiteral at hlit
  simp only [Bool.and_eq_true, decide_eq_true_eq] at hlit
  obtain ⟨hne, hall⟩ := hlit
  cases ds with
  | nil => exact absurd rfl hne
  | cons d ds =>
    have hd : isDigit d = true := by
      simp only [List.all_cons, Bool.and_eq_true] at hall
      exact hall.1
    have hd2 : 48 ≤ d ∧ d ≤ 57 := by simpa [isDigit] using hd
    have hsp : iswspace d = false := by
      simp [iswspace]
      omega
    have h45 : d ≠ 45 := by omega
    have h43 : d ≠ 43 := by omega
    have htw := takeWhile_digits (d :: ds) rest hall hrest
    unfold stoi
    simp only [List.cons_append, List.dropWhile, hsp, if_neg h45, if_neg h43]
    have htw2 : List.takeWhile isDigit (d :: ds.append rest) = d :: ds := htw
    rw [htw2]
    have hr2 : (-2147483648 : Int) ≤ (digitsValue (d :: ds) : Int) := by
      have := digitsValue_nonneg_cast (d :: ds)
      omega
    simp [hr2, hfit]

/-- `stoi` throws on a text without a leading integer. -/
theorem stoi_none (s : wstring) (h : hasLeadingInteger s = false) : stoi s = none := by
  unfold hasLeadingInteger at h
  unfold stoi
  generalize s.dropWhile iswspace = r at h ⊢
  cases r with
  | nil => simp
  | cons c t =>
    by_cases h45 : c = 45
    · simp only [h45, true_or, if_true] at h ⊢
      cases t with
      | nil => simp
      | cons e t => simp only at h; simp [List.takeWhile, h]
    · by_cases h43 : c = 43
      · simp only [h43, or_true, if_true] at h ⊢
        cases t with
        | nil => simp
        | cons e t => simp only at h; simp [List.takeWhile, h]
      · have hor : ¬ (c = 45 ∨ c = 43) := by omega
        dsimp only at h ⊢
        rw [if_neg hor] at h
        dsimp only at h
        simp only [if_neg h45, if_neg h43]
        simp [List.takeWhile, h]

theorem toDWORD_natCast (n : Nat) (hn : n ≤ 2147483647) : toDWORD (n : Int) = n := by
  unfold toDWORD
  omega

/-- C7, the claim as stated fails: `12abc` is not wholly an integer literal,
yet committing it in the Kill dialog requests the termination of pid 12; and
`2147483648` is an integer literal, yet committing it requests nothing. -/
theorem handleKill_counterexample :
    isDecimalLiteral (wstr "12abc") = false ∧
    (handleKill State.initial (wstr "12abc" ++ [13])).map (fun r => r.1.control) =
      some [ControlCall.terminate 12] ∧
    isDecimalLiteral (wstr "2147483648") = true ∧
    (handleKill State.initial (wstr "2147483648" ++ [13])).map (fun r => r.1.control) =
      some [] := by
  refine ⟨by decide, by decide, by decide, by decide⟩

/-- C7, amended: for every text committed with Enter in the Kill dialog, the
dialog returns with view mode, sort mode, filter and `running` as they were;
if the text starts with a decimal integer literal of value `n ≤ 2147483647`
that is not followed by a further digit (in particular if the text is such a
literal), the termination of pid `n` is requested; if the text has no leading
integer (after white space and one optional sign its next character is not a
digit, as in `abc`), no termination is requested. -/
theorem handleKill_spec (st : State) (text : wstring) (keys : List Nat)
    (htext : ∀ c ∈ text, 32 ≤ c) :
    ∃ st2 : State, handleKill st (text ++ 13 :: keys) = some (st2, keys) ∧
      viewMode st2 = viewMode st ∧ st2.running = st.running ∧
      st2.filterStr = st.filterStr ∧ st2.currentSort = st.currentSort ∧
      (∀ ds rest : wstring, text = ds ++ rest → isDecimalLiteral ds = true →
        (∀ c, rest.head? = some c → isDigit c = false) → digitsValue ds ≤ 2147483647 →
        st2.control = st.control ++ [ControlCall.terminate (digitsValue ds)]) ∧
      (isDecimalLiteral text = true → digitsValue text ≤ 2147483647 →
        st2.control = st.control ++ [ControlCall.terminate (digitsValue text)]) ∧
      (hasLeadingInteger text = false → st2.control = st.control) := by
  have hin : getUserInput (text ++ 13 :: keys) = some (true, text, keys) := by
    have h := getUserInputLoop_text [] text keys htext
    simpa [getUserInput] using h
  have hlead : ∀ ds rest : wstring, text = ds ++ rest → isDecimalLiteral ds = true →
      (∀ c, rest.head? = some c → isDigit c = false) → digitsValue ds ≤ 2147483647 →
      handleKill st (text ++ 13 :: keys) = some (closeDialog
        { st with control := st.control ++ [ControlCall.terminate (digitsValue ds)] }, keys) := by
    intro ds rest htxt hlit hrest hfit
    have hne : text ≠ [] := by
      rw [htxt]
      intro hnil
      have hds : ds = [] := (List.append_eq_nil.1 hnil).1
      rw [hds] at hlit
      simp [isDecimalLiteral] at hlit
    have hstoi : stoi text = some (digitsValue ds : Int) := by
      rw [htxt]; exact stoi_leading ds rest hlit hrest hfit
    unfold handleKill
    rw [hin]
    simp only [hne, ne_eq, not_false_eq_true, and_self, if_true, hstoi,
      toDWORD_natCast _ hfit]
  have hnone : hasLeadingInteger text = false →
      handleKill st (text ++ 13 :: keys) = some (closeDialog st, keys) := by
    intro hno
    unfold handleKill
    rw [hin]
    by_cases hne : text = []
    · simp [hne]
    · simp only [hne, ne_eq, not_false_eq_true, and_self, if_true, stoi_none text hno]
  have hret : ∃ st2 : State, handleKill st (text ++ 13 :: keys) = some (st2, keys) ∧
      viewMode st2 = viewMode st ∧ st2.running = st.running ∧
      st2.filterStr = st.filterStr ∧ st2.currentSort = st.currentSort := by
    unfold handleKill
    rw [hin]
    by_cases hc : text = []
    · exact ⟨closeDialog st, by simp [hc], rfl, rfl, rfl, rfl⟩
    · rcases hs : stoi text with _ | n
      · exact ⟨closeDialog st, by simp [hc, hs], rfl, rfl, rfl, rfl⟩
      · exact ⟨closeDialog { st with control := st.control ++ [ControlCall.terminate (toDWORD n)] },
          by simp [hc, hs], rfl, rfl, rfl, rfl⟩
  obtain ⟨st2, h1, h2, h3, h4, h5⟩ := hret
  refine ⟨st2, h1, h2, h3, h4, h5, ?_, ?_, ?_⟩
  · intro ds rest htxt hlit hrest hfit
    have h := hlead ds rest htxt hlit hrest hfit
    rw [h1] at h
    simp only [Option.some.injEq, Prod.mk.injEq, and_true] at h
    rw [h]; rfl
  · intro hlit hfit
    have h := hlead text [] (by simp) hlit (by simp) hfit
    rw [h1] at h
    simp only [Option.some.injEq, Prod.mk.injEq, and_true] at h
    rw [h]; rfl
  · intro hno
    have h := hnone hno
    rw [h1] at h
    simp only [Option.some.injEq, Prod.mk.injEq, and_true] at h
    rw [h]; rfl

/-- C7 amended, on concrete texts: committing `4321` requests the termination
of pid 4321, committing `12abc` that of pid 12, and committing `abc` requests
nothing. -/
theorem handleKill_spec_witness :
    (∃ st2 : State, handleKill State.initial (wstr "4321" ++ 13 :: []) = some (st2, []) ∧
      st2.control = [ControlCall.terminate 4321] ∧ viewMode st2 = ViewMode.Normal) ∧
    (∃ st2 : State, handleKill State.initial (wstr "12abc" ++ 13 :: []) = some (st2, []) ∧
      st2.control = [ControlCall.terminate 12]) ∧
    (∃ st2 : State, handleKill State.initial (wstr "abc" ++ 13 :: []) = some (st2, []) ∧
      st2.control = [] ∧ viewMode st2 = ViewMode.Normal) := by
  refine ⟨?_, ?_, ?_⟩
  · obtain ⟨st2, h1, h2, _, _, _, _, h7, _⟩ :=
      handleKill_spec State.initial (wstr "4321") [] (by decide)
    exact ⟨st2, h1, h7 (by decide) (by decide), h2⟩
  · obtain ⟨st2, h1, _, _, _, _, h6, _, _⟩ :=
      handleKill_spec State.initial (wstr "12abc") [] (by decide)
    exact ⟨st2, h1, h6 (wstr "12") (wstr "abc") (by decide) (by decide) (by decide) (by decide)⟩
  · obtain ⟨st2, h1, h2, _, _, _, _, _, h8⟩ :=
      handleKill_spec State.initial (wstr "abc") [] (by decide)
    exact ⟨st2, h1, h8 (by decide), h2⟩

/-! ## The history after a polling cycle -/

theorem GetMetrics_history (pid : Nat) (h : HandleReadings) (hist : PerfHistory) :
    (GetMetrics pid h hist).perfHistory =
      match rawCounters h with
      | some t => hist.set pid t
      | none => hist := by
  unfold GetMetrics rawCounters
  rcases hp : h.processTimes with _ | ⟨kt, ut⟩
  · simp
  · rcases hs : h.systemTimes with _ | ⟨sk, su⟩
    · simp
    · rcases hq : hist pid with _ | t <;> simp [hq]

/-- One step of the loop writes the history only for a sampled entry, and
only at that entry's pid. -/
theorem enumStep_history (filterStr : wstring) (acc : Enumeration) (x : SnapshotEntry) :
    (∀ t, sampledAs filterStr x t →
      (enumStep filterStr acc x).perfHistory = acc.perfHistory.set x.pe.th32ProcessID t) ∧
    ((∀ t, ¬ sampledAs filterStr x t) →
      (enumStep filterStr acc x).perfHistory = acc.perfHistory) := by
  unfold sampledAs
  by_cases hf : checkFilter x.pe.szExeFile filterStr = true
  · rcases hx : x.handle with _ | h
    · refine ⟨?_, fun _ => by simp [enumStep, hf, hx]⟩
      rintro t ⟨_, h, hh, _⟩
      simp at hh
    · rcases hr : rawCounters h with _ | t0
      · refine ⟨?_, fun _ => by simp [enumStep, hf, hx, GetMetrics_history, hr]⟩
        rintro t ⟨_, h2, hh, hr2⟩
        simp only [Option.some.injEq] at hh
        rw [← hh, hr] at hr2
        simp at hr2
      · refine ⟨?_, fun hno => absurd ⟨hf, h, rfl, hr⟩ (hno t0)⟩
        rintro t ⟨_, h2, hh, hr2⟩
        simp only [Option.some.injEq] at hh
        rw [← hh, hr] at hr2
        simp only [Option.some.injEq] at hr2
        simp [enumStep, hf, hx, GetMetrics_history, hr, hr2]
  · refine ⟨?_, fun _ => by simp [enumStep, hf]⟩
    rintro t ⟨hf2, _⟩
    exact absurd hf2 hf

/-- The loop leaves the history of a pid alone when the snapshot has no sampled
entry with that pid. -/
theorem enumerate_history_unchanged (filterStr : wstring) (snap : List SnapshotEntry)
    (acc : Enumeration) (q : Nat)
    (hq : ∀ e ∈ snap, e.pe.th32ProcessID = q → ∀ t, ¬ sampledAs filterStr e t) :
    (snap.foldl (enumStep filterStr) acc).perfHistory q = acc.perfHistory q := by
  induction snap generalizing acc with
  | nil => rfl
  | cons x snap ih =>
    rw [List.foldl_cons, ih _ (fun e he => hq e (List.mem_cons_of_mem _ he))]
    by_cases hs : ∃ t, sampledAs filterStr x t
    · obtain ⟨t, ht⟩ := hs
      have hne : x.pe.th32ProcessID ≠ q := fun heq => hq x (List.mem_cons_self _ _) heq t ht
      rw [(enumStep_history filterStr acc x).1 t ht]
      have hne2 : q ≠ x.pe.th32ProcessID := fun h => hne h.symm
      simp [PerfHistory.set, hne2]
    · rw [(enumStep_history filterStr acc x).2 (fun t ht => hs ⟨t, ht⟩)]

/-- With distinct pids in the snapshot, the loop leaves at the pid of each
sampled entry the counters read for it. -/
theorem enumerate_history_sampled (filterStr : wstring) (snap : List SnapshotEntry)
    (acc : Enumeration) (hnodup : (snap.map (fun e => e.pe.th32ProcessID)).Nodup)
    (e : SnapshotEntry) (he : e ∈ snap) (t : PerfTracker) (ht : sampledAs filterStr e t) :
    (snap.foldl (enumStep filterStr) acc).perfHistory e.pe.th32ProcessID = some t := by
  induction snap generalizing acc with
  | nil => simp at he
  | cons x snap ih =>
    rw [List.map_cons, List.nodup_cons] at hnodup
    rw [List.foldl_cons]
    rcases List.mem_cons.1 he with hex | hes
    · rw [enumerate_history_unchanged]
      · rw [← hex, (enumStep_history filterStr acc e).1 t ht]
        exact PerfHistory.set_same _ _ _
      · intro e2 he2 hpid
        exfalso
        apply hnodup.1
        rw [← hex, ← hpid]
        exact List.mem_map_of_mem _ he2
    · exact ih _ hnodup.2 hes

/-- C11, the claim as stated fails: from the same empty history and the same
snapshot of one readable process `a.exe` with pid 4, the cycle under the filter
`%` stores the counters of pid 4 while the cycle under the filter `zzz` stores
nothing, so the two cycles end with different history maps. -/
theorem history_depends_on_filter :
    (buildFrame SortMode.BY_CPU (wstr "%") (fun _ => none)
        [⟨⟨4, wstr "a.exe", 1⟩,
          some ⟨none, some (⟨1000, 0⟩, ⟨500, 0⟩), some (⟨15000, 0⟩, ⟨0, 0⟩), none⟩⟩]).perfHistory 4
      = some ⟨1500, 15000, 0⟩ ∧
    (buildFrame SortMode.BY_CPU (wstr "zzz") (fun _ => none)
        [⟨⟨4, wstr "a.exe", 1⟩,
          some ⟨none, some (⟨1000, 0⟩, ⟨500, 0⟩), some (⟨15000, 0⟩, ⟨0, 0⟩), none⟩⟩]).perfHistory 4
      = none ∧
    (buildFrame SortMode.BY_CPU (wstr "%") (fun _ => none)
        [⟨⟨4, wstr "a.exe", 1⟩,
          some ⟨none, some (⟨1000, 0⟩, ⟨500, 0⟩), some (⟨15000, 0⟩, ⟨0, 0⟩), none⟩⟩]).perfHistory
      ≠
    (buildFrame SortMode.BY_CPU (wstr "zzz") (fun _ => none)
        [⟨⟨4, wstr "a.exe", 1⟩,
          some ⟨none, some (⟨1000, 0⟩, ⟨500, 0⟩), some (⟨15000, 0⟩, ⟨0, 0⟩), none⟩⟩]).perfHistory := by
  have hw : wstr "%" = [37] := by decide
  have hz : checkFilter (wstr "a.exe") (wstr "zzz") = false := by decide
  have h1 : (buildFrame SortMode.BY_CPU (wstr "%") (fun _ => none)
      [⟨⟨4, wstr "a.exe", 1⟩,
        some ⟨none, some (⟨1000, 0⟩, ⟨500, 0⟩), some (⟨15000, 0⟩, ⟨0, 0⟩), none⟩⟩]).perfHistory 4
      = some ⟨1500, 15000, 0⟩ := by
    simp [buildFrame, enumerate, enumStep, checkFilter, hw, GetMetrics, PerfHistory.set,
      combineTimes, QuadPart, currentIo]
  have h2 : (buildFrame SortMode.BY_CPU (wstr "zzz") (fun _ => none)
      [⟨⟨4, wstr "a.exe", 1⟩,
        some ⟨none, some (⟨1000, 0⟩, ⟨500, 0⟩), some (⟨15000, 0⟩, ⟨0, 0⟩), none⟩⟩]).perfHistory 4
      = none := by
    simp [buildFrame, enumerate, enumStep, hz]
  refine ⟨h1, h2, ?_⟩
  intro heq
  have h3 := congrFun heq 4
  rw [h1, h2] at h3
  simp at h3

/-- C11, amended: metrics are computed only for the snapshotted processes that
pass the filter. After a cycle over a snapshot with distinct pids, the history
holds, for every enumerated process that passes the filter and whose counters
could be read, an entry equal to its current raw counters; and for every pid
without such a process in the snapshot the history entry is what it was before
the cycle. -/
theorem history_after_cycle (mode : SortMode) (filterStr : wstring) (hist : PerfHistory)
    (snap : List SnapshotEntry)
    (hnodup : (snap.map (fun e => e.pe.th32ProcessID)).Nodup) :
    (∀ e ∈ snap, ∀ t, sampledAs filterStr e t →
      (buildFrame mode filterStr hist snap).perfHistory e.pe.th32ProcessID = some t) ∧
    (∀ q : Nat, (∀ e ∈ snap, e.pe.th32ProcessID = q → ∀ t, ¬ sampledAs filterStr e t) →
      (buildFrame mode filterStr hist snap).perfHistory q = hist q) := by
  refine ⟨?_, ?_⟩
  · intro e he t ht
    exact enumerate_history_sampled filterStr snap ⟨[], 0, 0, 0, hist⟩ hnodup e he t ht
  · intro q hq
    exact enumerate_history_unchanged filterStr snap ⟨[], 0, 0, 0, hist⟩ q hq

/-- C11 amended, on a snapshot of two readable processes under the filter
`note`: `notepad.exe` (pid 8) passes and its counters are stored, `a.exe`
(pid 4) is rejected and its history entry stays as it was. -/
theorem history_after_cycle_witness :
    (buildFrame SortMode.BY_CPU (wstr "note") (fun _ => some ⟨1, 2, 3⟩)
        [⟨⟨4, wstr "a.exe", 1⟩,
            some ⟨none, some (⟨1000, 0⟩, ⟨500, 0⟩), some (⟨15000, 0⟩, ⟨0, 0⟩), none⟩⟩,
          ⟨⟨8, wstr "notepad.exe", 1⟩,
            some ⟨none, some (⟨70, 0⟩, ⟨7, 0⟩), some (⟨15000, 0⟩, ⟨0, 0⟩), some (5, 6)⟩⟩]).perfHistory 8
      = some ⟨77, 15000, 11⟩ ∧
    (buildFrame SortMode.BY_CPU (wstr "note") (fun _ => some ⟨1, 2, 3⟩)
        [⟨⟨4, wstr "a.exe", 1⟩,
            some ⟨none, some (⟨1000, 0⟩, ⟨500, 0⟩), some (⟨15000, 0⟩, ⟨0, 0⟩), none⟩⟩,
          ⟨⟨8, wstr "notepad.exe", 1⟩,
            some ⟨none, some (⟨70, 0⟩, ⟨7, 0⟩), some (⟨15000, 0⟩, ⟨0, 0⟩), some (5, 6)⟩⟩]).perfHistory 4
      = some ⟨1, 2, 3⟩ := by
  have h := history_after_cycle SortMode.BY_CPU (wstr "note") (fun _ => some ⟨1, 2, 3⟩)
    [⟨⟨4, wstr "a.exe", 1⟩,
        some ⟨none, some (⟨1000, 0⟩, ⟨500, 0⟩), some (⟨15000, 0⟩, ⟨0, 0⟩), none⟩⟩,
      ⟨⟨8, wstr "notepad.exe", 1⟩,
        some ⟨none, some (⟨70, 0⟩, ⟨7, 0⟩), some (⟨15000, 0⟩, ⟨0, 0⟩), some (5, 6)⟩⟩]
    (by decide)
  refine ⟨?_, ?_⟩
  · refine h.1 _ (List.mem_cons_of_mem _ (List.mem_cons_self _ _)) ⟨77, 15000, 11⟩ ?_
    exact ⟨by decide, _, rfl, by decide⟩
  · refine h.2 4 ?_
    intro e he hpid t ht
    simp only [List.mem_cons, List.mem_singleton, List.not_mem_nil, or_false] at he
    rcases he with rfl | rfl
    · have hrej : checkFilter (wstr "a.exe") (wstr "note") = false := by decide
      have := ht.1
      simp [hrej] at this
    · simp at hpid


end TaskTool
